import Mathlib

/-!
Verification of the POM TECH calendar/reminder engine and offline cache
worker.  The definitions below are a shallow embedding of `src/sw.js`
(the file holds the service-worker script followed by the page script):
the event store, the save/delete handlers, the month renderer's effect on
the store, the reminder scan `checkReminders`, and the service worker's
fetch handler.  Machine integers of the source are modelled as `Nat`/`Int`
(ids are `Date.now()` values, times are millisecond counts); fallible
paths return `Option`.
-/

/-- A calendar event as stored in `events[date]` (src/sw.js line 294):
the object `{ id, text, time, reminder }`.  `time` is `""` or `"HH:MM"`,
`reminder` is `"none"` or a decimal number of minutes. -/
structure CalendarEvent where
  id : Nat
  text : String
  time : String
  reminder : String
deriving DecidableEq

/-- The persisted `events` object: a mapping from date-key strings to
lists of events.  JS object keys are unique; the operations below keep
the association list faithful to that (first occurrence wins). -/
abbrev EventStore := List (String × List CalendarEvent)

/-- JS property read `events[key]` (`none` when the key is absent). -/
def lookupStore (events : EventStore) (key : String) : Option (List CalendarEvent) :=
  (events.find? (fun p => p.1 == key)).map (fun p => p.2)

/-- JS property write `events[key] = v`: replaces the entry when the key
exists, otherwise adds it. -/
def setStore : EventStore → String → List CalendarEvent → EventStore
  | [], key, v => [(key, v)]
  | p :: rest, key, v =>
    if p.1 == key then (key, v) :: rest else p :: setStore rest key v

/-- JS `delete events[key]`. -/
def removeKey (events : EventStore) (key : String) : EventStore :=
  events.filter (fun p => !(p.1 == key))

/-- The date-key template literal of the source,
`` `${year}-${month}-${day}` `` (src/sw.js lines 331, 350, 492), where
`month` is the 0-based `getMonth()` index and no component is
zero-padded. -/
def dateKey (year monthIndex day : Nat) : String :=
  toString year ++ "-" ++ toString monthIndex ++ "-" ++ toString day

/-- The components of a JS `Date` value that the reminder scan reads:
`getFullYear()`, the 0-based `getMonth()`, `getDate()`, and the time of
day in milliseconds since local midnight.  (`getPngDate()` produces such
a value; the scan takes it as the parameter `now`.) -/
structure DateTime where
  year : Nat
  monthIndex : Nat
  day : Nat
  msOfDay : Int
deriving DecidableEq

/-- `String.prototype.split` with a single-character separator, on the
character list of the string. -/
def splitOnChar (sep : Char) : List Char → List (List Char)
  | [] => [[]]
  | c :: rest =>
    let r := splitOnChar sep rest
    if c = sep then [] :: r
    else
      match r with
      | [] => [[c]]
      | g :: gs => (c :: g) :: gs

/-- `Number(s)` on one piece of a time string: a nonempty digit string
parses to its value, anything else is NaN (`none`). -/
def digitsToNat (l : List Char) : Option Nat :=
  if l = [] then none
  else if l.all Char.isDigit then
    some (l.foldl (fun n c => n * 10 + (c.toNat - 48)) 0)
  else none

/-- `event.time.split(':').map(Number)` destructured into hours and
minutes (src/sw.js line 500).  A malformed time makes one component NaN,
which poisons both time comparisons of the scan so the event is
silently skipped; that skip is modelled by returning `none`. -/
def parseTimeHM (s : String) : Option (Nat × Nat) :=
  match splitOnChar ':' s.data with
  | [h, m] =>
    match digitsToNat h, digitsToNat m with
    | some hv, some mv => some (hv, mv)
    | _, _ => none
  | _ => none

/-- `parseInt(s, 10)` (src/sw.js line 507): parses the longest leading
digit run; no digits gives NaN, which again poisons the comparison below
so the event is skipped, modelled by `none`. -/
def jsParseInt (s : String) : Option Nat :=
  digitsToNat (s.data.takeWhile Char.isDigit)

/-- The `todaysEvents.forEach` body of `checkReminders`
(src/sw.js lines 495-514), threading the notifications shown (in order)
and the `sessionNotifiedIds` set (a list of ids).  An event is skipped
when it has no reminder, no time, or was already notified this session,
or when its scheduled time is already past; otherwise, once `now` has
reached `eventTime - reminderMinutes`, it is shown and its id recorded. -/
def remindLoop (now : DateTime) :
    List CalendarEvent → List Nat → List CalendarEvent × List Nat
  | [], notified => ([], notified)
  | e :: rest, notified =>
    if e.reminder = "" ∨ e.reminder = "none" ∨ e.time = "" ∨ e.id ∈ notified then
      remindLoop now rest notified
    else
      match parseTimeHM e.time with
      | none => remindLoop now rest notified
      | some hm =>
        let eventMs : Int := ((hm.1 * 60 + hm.2) * 60000 : Nat)
        if eventMs < now.msOfDay then
          remindLoop now rest notified
        else
          match jsParseInt e.reminder with
          | none => remindLoop now rest notified
          | some lead =>
            if eventMs - (lead : Int) * 60000 ≤ now.msOfDay then
              let r := remindLoop now rest (e.id :: notified)
              (e :: r.1, r.2)
            else
              remindLoop now rest notified

/-- `checkReminders` (src/sw.js lines 490-515): looks up today's bucket
under the key built from `now`'s components and scans it.  Returns the
notifications emitted (in order) and the updated `sessionNotifiedIds`. -/
def checkReminders (events : EventStore) (notified : List Nat) (now : DateTime) :
    List CalendarEvent × List Nat :=
  let todayStr := dateKey now.year now.monthIndex now.day
  let todaysEvents := (lookupStore events todayStr).getD []
  remindLoop now todaysEvents notified

/-- The event of the C1 scenario: time `"14:00"`, reminder `"30"`. -/
def c1Event : CalendarEvent := ⟨1, "Meeting", "14:00", "30"⟩

/-- `new Date(2024, 4, 10, 13, 31)` — 13:31 on May 10, 2024
(`getMonth() = 4`). -/
def mayTenAt (min : Nat) : DateTime := ⟨2024, 4, 10, (min : Int) * 60000⟩

/-- C1 (counterexample): the claim says an event stored under date key
`"2024-5-10"` is notified by a scan at 2024-05-10T13:31.  It is not: on
May 10 the code builds today's key from the 0-based `getMonth()`, i.e.
`"2024-4-10"`, so the lookup misses the bucket and the scan emits no
notification at all (in particular not exactly one). -/
theorem c1_reminder_scenario_counterexample :
    (checkReminders [("2024-5-10", [c1Event])] [] (mayTenAt (13 * 60 + 31))).1 = []
    ∧ (checkReminders [("2024-5-10", [c1Event])] [] (mayTenAt (13 * 60 + 31))).1.length ≠ 1 := by
  decide

/-- C1 (amended): for the event `{time: "14:00", reminder: "30"}` stored
under the date key the code actually produces for May 10, 2024 — namely
`"2024-4-10"`, with the 0-based month index — a scan at 13:31 emits
exactly that one notification (now is at or past 14:00 minus 30 minutes
and the event is not yet past) and a scan at 13:29 emits none. -/
theorem c1_reminder_scenario_amended :
    (checkReminders [("2024-4-10", [c1Event])] [] (mayTenAt (13 * 60 + 31))).1 = [c1Event]
    ∧ (checkReminders [("2024-4-10", [c1Event])] [] (mayTenAt (13 * 60 + 29))).1 = [] := by
  decide

/-! ### Idempotence of the reminder scan (C2) -/

/-- Number of notifications carrying a given event id. -/
def idCount (id : Nat) (l : List CalendarEvent) : Nat :=
  l.countP (fun e => e.id == id)

lemma remindLoop_snd_append (now : DateTime) (l : List CalendarEvent) :
    ∀ s : List Nat, ∃ pre, (remindLoop now l s).2 = pre ++ s := by
  induction l with
  | nil => intro s; exact ⟨[], rfl⟩
  | cons e rest ih =>
    intro s
    simp only [remindLoop]
    split
    · exact ih s
    · split
      · exact ih s
      · split
        · exact ih s
        · split
          · exact ih s
          · split
            · obtain ⟨pre, hp⟩ := ih (e.id :: s)
              exact ⟨pre ++ [e.id], by simp [hp]⟩
            · exact ih s

lemma remindLoop_mem_snd (now : DateTime) (l : List CalendarEvent) (s : List Nat)
    (x : Nat) (hx : x ∈ s) : x ∈ (remindLoop now l s).2 := by
  obtain ⟨pre, hp⟩ := remindLoop_snd_append now l s
  rw [hp]
  exact List.mem_append_right pre hx

lemma remindLoop_count_of_mem (now : DateTime) (id : Nat) (l : List CalendarEvent) :
    ∀ s : List Nat, id ∈ s → idCount id (remindLoop now l s).1 = 0 := by
  induction l with
  | nil => intro s _; rfl
  | cons e rest ih =>
    intro s hid
    simp only [remindLoop]
    split
    · exact ih s hid
    · rename_i hguard
      have hnot : e.id ∉ s := by
        intro hmem
        exact hguard (Or.inr (Or.inr (Or.inr hmem)))
      split
      · exact ih s hid
      · split
        · exact ih s hid
        · split
          · exact ih s hid
          · split
            · have hne : (e.id == id) = false := by
                simp only [beq_eq_false_iff_ne]
                intro h
                exact hnot (h ▸ hid)
              simp only [idCount, List.countP_cons, hne]
              have := ih (e.id :: s) (List.mem_cons_of_mem _ hid)
              simpa [idCount] using this
            · exact ih s hid

lemma remindLoop_count_le_one (now : DateTime) (id : Nat) (l : List CalendarEvent) :
    ∀ s : List Nat,
      idCount id (remindLoop now l s).1 ≤ 1
      ∧ (idCount id (remindLoop now l s).1 ≠ 0 → id ∈ (remindLoop now l s).2) := by
  induction l with
  | nil => intro s; exact ⟨Nat.zero_le 1, fun h => absurd rfl h⟩
  | cons e rest ih =>
    intro s
    simp only [remindLoop]
    split
    · exact ih s
    · split
      · exact ih s
      · split
        · exact ih s
        · split
          · exact ih s
          · split
            · by_cases heq : e.id = id
              · have hbeq : (e.id == id) = true := beq_iff_eq.mpr heq
                have hz : idCount id (remindLoop now rest (e.id :: s)).1 = 0 :=
                  remindLoop_count_of_mem now id rest (e.id :: s)
                    (heq ▸ List.mem_cons_self e.id s)
                constructor
                · simp [idCount, List.countP_cons, hbeq]
                  simpa [idCount] using Nat.le_of_eq hz
                · intro _
                  exact remindLoop_mem_snd now rest (e.id :: s) id
                    (heq ▸ List.mem_cons_self e.id s)
              · have hbeq : (e.id == id) = false := beq_eq_false_iff_ne.mpr heq
                have := ih (e.id :: s)
                constructor
                · simpa [idCount, List.countP_cons, hbeq] using this.1
                · intro h
                  refine this.2 ?_
                  simpa [idCount, List.countP_cons, hbeq] using h
            · exact ih s

/-- C2: across two consecutive scans with the same `now` (the second
seeing the `sessionNotifiedIds` produced by the first), any given event
id is notified at most once in total: once an id enters the session set
it is skipped by every later scan of the session. -/
theorem scanReminders_idempotent (events : EventStore) (notified : List Nat)
    (now : DateTime) (id : Nat) :
    idCount id (checkReminders events notified now).1
      + idCount id (checkReminders events (checkReminders events notified now).2 now).1
      ≤ 1 := by
  have key : ∀ nts : List Nat,
      checkReminders events nts now
        = remindLoop now
            ((lookupStore events (dateKey now.year now.monthIndex now.day)).getD []) nts :=
    fun _ => rfl
  rw [key, key]
  set l := (lookupStore events (dateKey now.year now.monthIndex now.day)).getD []
  by_cases h : idCount id (remindLoop now l notified).1 = 0
  · rw [h]
    simpa using (remindLoop_count_le_one now id l (remindLoop now l notified).2).1
  · have h1 := (remindLoop_count_le_one now id l notified).1
    have hmem := (remindLoop_count_le_one now id l notified).2 h
    have h2 := remindLoop_count_of_mem now id l (remindLoop now l notified).2 hmem
    omega

/-! ### Saving and deleting events (C3, C4, C5) -/

/-- `findIndex` on `events[date]` plus replace-in-place, else `push`
(src/sw.js lines 290-295): the first event whose id matches is replaced
by the spread `{ ...old, text, time, reminder }` (id kept); when no id
matches, `{ id, text, time, reminder }` is appended at the end. -/
def replaceOrAppend (id : Nat) (text time reminder : String) :
    List CalendarEvent → List CalendarEvent
  | [] => [⟨id, text, time, reminder⟩]
  | e :: rest =>
    if e.id == id then
      { e with text := text, time := time, reminder := reminder } :: rest
    else
      e :: replaceOrAppend id text time reminder rest

/-- `String.prototype.trim`: strip whitespace from both ends. -/
def jsTrim (s : String) : String :=
  ⟨((s.data.dropWhile Char.isWhitespace).reverse.dropWhile Char.isWhitespace).reverse⟩

/-- The `saveEventBtn` click handler (src/sw.js lines 276-299): trims
the text, rejects an empty text or a missing editing context, rejects a
non-`"none"` reminder without a time, otherwise creates the bucket if
absent, replaces or appends the event, and calls `saveEvents()`.
Returns the new store and whether `saveEvents()` ran (i.e. whether the
store was persisted to localStorage). -/
def saveEvent (events : EventStore) (currentEditing : Option (String × Nat))
    (rawText time reminder : String) : EventStore × Bool :=
  let text := jsTrim rawText
  if text = "" then (events, false)
  else
    match currentEditing with
    | none => (events, false)
    | some (date, id) =>
      if reminder ≠ "none" ∧ time = "" then (events, false)
      else
        let bucket := (lookupStore events date).getD []
        (setStore events date (replaceOrAppend id text time reminder bucket), true)

/-- The delete-confirmation handler (src/sw.js lines 312-319):
`events[date] = events[date].filter(e => e.id !== eventId)`, drop the
key if the bucket became empty.  When the key is absent the source
dereferences `undefined` and throws, modelled by `none`. -/
def deleteEventStore (events : EventStore) (date : String) (id : Nat) :
    Option EventStore :=
  match lookupStore events date with
  | none => none
  | some bucket =>
    let filtered := bucket.filter (fun e => !(e.id == id))
    some (if filtered.isEmpty then removeKey events date else setStore events date filtered)

/-- The full delete handler, which also runs
`sessionNotifiedIds.delete(eventId)` and then persists (src/sw.js
lines 312-319). -/
def deleteEvent (events : EventStore) (notified : List Nat) (date : String) (id : Nat) :
    Option (EventStore × List Nat) :=
  (deleteEventStore events date id).map
    (fun s => (s, notified.filter (fun x => !(x == id))))

lemma lookupStore_removeKey (events : EventStore) (key : String) :
    lookupStore (removeKey events key) key = none := by
  induction events with
  | nil => rfl
  | cons p rest ih =>
    by_cases h : p.1 = key
    · have hb : (p.1 == key) = true := beq_iff_eq.mpr h
      have hdrop : removeKey (p :: rest) key = removeKey rest key := by
        simp [removeKey, List.filter_cons, hb]
      rw [hdrop]
      exact ih
    · have hb : (p.1 == key) = false := beq_eq_false_iff_ne.mpr h
      have hkeep : removeKey (p :: rest) key = p :: removeKey rest key := by
        simp [removeKey, List.filter_cons, hb]
      rw [hkeep]
      simpa [lookupStore, List.find?, hb] using ih

lemma lookupStore_setStore_self (events : EventStore) (key : String)
    (v : List CalendarEvent) : lookupStore (setStore events key v) key = some v := by
  induction events with
  | nil => simp [setStore, lookupStore, List.find?]
  | cons p rest ih =>
    by_cases h : p.1 = key
    · have hb : (p.1 == key) = true := beq_iff_eq.mpr h
      simp [setStore, hb, lookupStore, List.find?]
    · have hb : (p.1 == key) = false := beq_eq_false_iff_ne.mpr h
      simpa [setStore, hb, lookupStore, List.find?] using ih

lemma lookupStore_setStore_ne (events : EventStore) (key other : String)
    (v : List CalendarEvent) (h : other ≠ key) :
    lookupStore (setStore events key v) other = lookupStore events other := by
  have hko : (key == other) = false := beq_eq_false_iff_ne.mpr (Ne.symm h)
  induction events with
  | nil => simp [setStore, lookupStore, List.find?, hko]
  | cons p rest ih =>
    by_cases hp : p.1 = key
    · have hb : (p.1 == key) = true := beq_iff_eq.mpr hp
      have hpo : (p.1 == other) = false := by
        rw [hp]; exact hko
      simp [setStore, hb, lookupStore, List.find?, hko, hpo]
    · have hb : (p.1 == key) = false := beq_eq_false_iff_ne.mpr hp
      by_cases hpo : p.1 = other
      · have hpo' : (p.1 == other) = true := beq_iff_eq.mpr hpo
        simp [setStore, hb, lookupStore, List.find?, hpo']
      · have hpo' : (p.1 == other) = false := beq_eq_false_iff_ne.mpr hpo
        simpa [setStore, hb, lookupStore, List.find?, hpo'] using ih

/-- C3: a save attempt whose trimmed text is empty, and a save attempt
with a reminder but no time, are both rejected: the store comes back
untouched and `saveEvents()` never runs, so nothing is persisted. -/
theorem saveEvent_rejects_invalid (events : EventStore)
    (currentEditing : Option (String × Nat)) (rawText time reminder : String)
    (h : jsTrim rawText = "" ∨ (reminder ≠ "none" ∧ time = "")) :
    saveEvent events currentEditing rawText time reminder = (events, false) := by
  rcases h with h | h
  · simp [saveEvent, h]
  · by_cases ht : jsTrim rawText = ""
    · simp [saveEvent, ht]
    · cases currentEditing with
      | none => simp [saveEvent, ht]
      | some p => simp [saveEvent, ht, h]

/-- C3 witness: the attempt to save an all-whitespace text, and the
attempt to save `"Standup"` with reminder `"30"` but no time, both
leave a one-bucket store untouched and unpersisted. -/
theorem saveEvent_rejects_invalid_witness :
    saveEvent [("2024-4-10", [c1Event])] (some ("2024-4-10", 7)) "   " "10:00" "none"
      = ([("2024-4-10", [c1Event])], false)
    ∧ saveEvent [("2024-4-10", [c1Event])] (some ("2024-4-10", 7)) "Standup" "" "30"
      = ([("2024-4-10", [c1Event])], false) :=
  ⟨saveEvent_rejects_invalid _ _ _ _ _ (Or.inl (by decide)),
   saveEvent_rejects_invalid _ _ _ _ _ (Or.inr (by decide))⟩

/-- C4: deleting an event from a present date key removes every event
with that id from the date's bucket; if the bucket becomes empty the
key itself disappears (a later lookup finds no bucket, not an empty
list), and the id is removed from `sessionNotifiedIds`. -/
theorem deleteEvent_removes (events : EventStore) (notified : List Nat)
    (date : String) (id : Nat) (bucket : List CalendarEvent)
    (h : lookupStore events date = some bucket) :
    ∃ r, deleteEvent events notified date id = some r
      ∧ lookupStore r.1 date
          = (if (bucket.filter (fun e => !(e.id == id))).isEmpty then none
             else some (bucket.filter (fun e => !(e.id == id))))
      ∧ id ∉ r.2 := by
  refine ⟨(if (bucket.filter (fun e => !(e.id == id))).isEmpty
            then removeKey events date
            else setStore events date (bucket.filter (fun e => !(e.id == id))),
          notified.filter (fun x => !(x == id))), ?_, ?_, ?_⟩
  · simp [deleteEvent, deleteEventStore, h]
  · by_cases he : (bucket.filter (fun e => !(e.id == id))).isEmpty
    · simp [he, lookupStore_removeKey]
    · simp [he, lookupStore_setStore_self]
  · intro hmem
    have := List.mem_filter.mp hmem
    simp at this

/-- C4 witness: deleting the only event of `"2024-4-10"` empties the
bucket, removes the key, and clears the id from the session set. -/
theorem deleteEvent_removes_witness :
    ∃ r, deleteEvent [("2024-4-10", [c1Event])] [1] "2024-4-10" 1 = some r
      ∧ lookupStore r.1 "2024-4-10"
          = (if (([c1Event].filter (fun e => !(e.id == 1))).isEmpty) then none
             else some ([c1Event].filter (fun e => !(e.id == 1))))
      ∧ 1 ∉ r.2 :=
  deleteEvent_removes [("2024-4-10", [c1Event])] [1] "2024-4-10" 1 [c1Event] (by decide)

lemma replaceOrAppend_of_absent (id : Nat) (t tm rm : String)
    (bucket : List CalendarEvent) (h : ∀ e ∈ bucket, e.id ≠ id) :
    replaceOrAppend id t tm rm bucket = bucket ++ [⟨id, t, tm, rm⟩] := by
  induction bucket with
  | nil => rfl
  | cons e rest ih =>
    have hne : (e.id == id) = false :=
      beq_eq_false_iff_ne.mpr (h e (List.mem_cons_self e rest))
    simp only [replaceOrAppend, hne, Bool.false_eq_true, if_false, List.cons_append,
      List.cons.injEq, true_and]
    exact ih (fun x hx => h x (List.mem_cons_of_mem e hx))

lemma replaceOrAppend_of_first (id : Nat) (t tm rm : String)
    (l₁ : List CalendarEvent) (e : CalendarEvent) (l₂ : List CalendarEvent)
    (he : e.id = id) (h₁ : ∀ x ∈ l₁, x.id ≠ id) :
    replaceOrAppend id t tm rm (l₁ ++ e :: l₂)
      = l₁ ++ { e with text := t, time := tm, reminder := rm } :: l₂ := by
  induction l₁ with
  | nil => simp [replaceOrAppend, beq_iff_eq.mpr he]
  | cons x rest ih =>
    have hne : (x.id == id) = false :=
      beq_eq_false_iff_ne.mpr (h₁ x (List.mem_cons_self x rest))
    simp only [List.cons_append, replaceOrAppend, hne, Bool.false_eq_true, if_false,
      List.cons.injEq, true_and]
    exact ih (fun y hy => h₁ y (List.mem_cons_of_mem x hy))

/-- C5: a save with valid inputs persists the store (`saveEvents()`
runs) and rewrites exactly the target date's bucket to
`replaceOrAppend`: when no event of the bucket carries the id, the new
event is appended at the end (the bucket being created from `[]` when
the key was absent); when the bucket holds the id, its first such event
keeps its id and gets the new text, time and reminder, all other events
and all other date keys staying as they were. -/
theorem saveEvent_creates_or_updates (events : EventStore) (date : String) (id : Nat)
    (rawText time reminder : String)
    (htext : jsTrim rawText ≠ "") (hvalid : reminder = "none" ∨ time ≠ "") :
    (saveEvent events (some (date, id)) rawText time reminder).2 = true
    ∧ lookupStore (saveEvent events (some (date, id)) rawText time reminder).1 date
        = some (replaceOrAppend id (jsTrim rawText) time reminder
            ((lookupStore events date).getD []))
    ∧ (∀ k, k ≠ date →
        lookupStore (saveEvent events (some (date, id)) rawText time reminder).1 k
          = lookupStore events k)
    ∧ ((∀ e ∈ (lookupStore events date).getD [], e.id ≠ id) →
        replaceOrAppend id (jsTrim rawText) time reminder ((lookupStore events date).getD [])
          = (lookupStore events date).getD [] ++ [⟨id, jsTrim rawText, time, reminder⟩])
    ∧ (∀ l₁ e l₂, (lookupStore events date).getD [] = l₁ ++ e :: l₂ → e.id = id →
        (∀ x ∈ l₁, x.id ≠ id) →
        replaceOrAppend id (jsTrim rawText) time reminder ((lookupStore events date).getD [])
          = l₁ ++ { e with text := jsTrim rawText, time := time, reminder := reminder } :: l₂) := by
  have hcond : ¬(reminder ≠ "none" ∧ time = "") := by
    rcases hvalid with h | h
    · simp [h]
    · simp [h]
  have hsave : saveEvent events (some (date, id)) rawText time reminder
      = (setStore events date (replaceOrAppend id (jsTrim rawText) time reminder
          ((lookupStore events date).getD [])), true) := by
    simp [saveEvent, htext, hcond]
  refine ⟨by rw [hsave], ?_, ?_, ?_, ?_⟩
  · rw [hsave]
    exact lookupStore_setStore_self events date _
  · intro k hk
    rw [hsave]
    exact lookupStore_setStore_ne events date k _ hk
  · intro habs
    exact replaceOrAppend_of_absent id (jsTrim rawText) time reminder _ habs
  · intro l₁ e l₂ hb he h₁
    rw [hb]
    exact replaceOrAppend_of_first id (jsTrim rawText) time reminder l₁ e l₂ he h₁

/-- C5 witness: saving `" Standup "` at `"09:00"` with reminder `"30"`
into an empty store persists and creates the bucket holding exactly the
new event with trimmed text. -/
theorem saveEvent_creates_or_updates_witness :
    (saveEvent [] (some ("2024-4-10", 5)) " Standup " "09:00" "30").2 = true
    ∧ lookupStore (saveEvent [] (some ("2024-4-10", 5)) " Standup " "09:00" "30").1 "2024-4-10"
        = some [⟨5, "Standup", "09:00", "30"⟩] := by
  have h := saveEvent_creates_or_updates [] "2024-4-10" 5 " Standup " "09:00" "30"
    (by decide) (Or.inr (by decide))
  exact ⟨h.1, by rw [h.2.1]; decide⟩

/-! ### Month rendering: per-day event order (C6) -/

/-- Lexicographic (code-point) comparison of character lists, the
effect of `(a.time || '').localeCompare(b.time || '')` on the plain
ASCII time strings of this app (src/sw.js line 370): `a ≤ b`. -/
def lexLe : List Char → List Char → Bool
  | [], _ => true
  | _ :: _, [] => false
  | a :: as, b :: bs =>
    if a < b then true else if b < a then false else lexLe as bs

lemma lexLe_total : ∀ a b : List Char, lexLe a b = true ∨ lexLe b a = true := by
  intro a
  induction a with
  | nil => intro b; exact Or.inl rfl
  | cons x xs ih =>
    intro b
    cases b with
    | nil => exact Or.inr rfl
    | cons y ys =>
      rcases lt_trichotomy x y with h | h | h
      · left; simp [lexLe, h]
      · subst h
        simpa [lexLe, lt_irrefl] using ih ys
      · right; simp [lexLe, h]

lemma lexLe_trans : ∀ a b c : List Char,
    lexLe a b = true → lexLe b c = true → lexLe a c = true := by
  intro a
  induction a with
  | nil => intro b c _ _; rfl
  | cons x xs ih =>
    intro b c hab hbc
    cases b with
    | nil => simp [lexLe] at hab
    | cons y ys =>
      cases c with
      | nil => simp [lexLe] at hbc
      | cons z zs =>
        by_cases hxy : x < y
        · by_cases hyz : y < z
          · simp [lexLe, lt_trans hxy hyz]
          · by_cases hzy : z < y
            · simp [lexLe, hyz, hzy] at hbc
            · have h : y = z := le_antisymm (not_lt.mp hzy) (not_lt.mp hyz)
              subst h
              simp [lexLe, hxy]
        · by_cases hyx : y < x
          · simp [lexLe, hxy, hyx] at hab
          · have h : x = y := le_antisymm (not_lt.mp hyx) (not_lt.mp hxy)
            subst h
            have hab' : lexLe xs ys = true := by simpa [lexLe, lt_irrefl] using hab
            by_cases hxz : x < z
            · simp [lexLe, hxz]
            · by_cases hzx : z < x
              · simp [lexLe, hxz, hzx] at hbc
              · have h : x = z := le_antisymm (not_lt.mp hzx) (not_lt.mp hxz)
                subst h
                have hbc' : lexLe ys zs = true := by simpa [lexLe, lt_irrefl] using hbc
                simpa [lexLe, lt_irrefl] using ih ys zs hab' hbc'

lemma lexLe_nil_right : ∀ l : List Char, lexLe l [] = true → l = [] := by
  intro l h
  cases l with
  | nil => rfl
  | cons c cs => simp [lexLe] at h

/-- The comparator of src/sw.js line 370 as a relation on events:
`a` sorts no later than `b` when `a.time ≤ b.time` lexicographically
(the empty time sorting before any `HH:MM`). -/
def eventLe (a b : CalendarEvent) : Prop := lexLe a.time.data b.time.data = true

instance : DecidableRel eventLe :=
  fun a b => (instDecidableEqBool (lexLe a.time.data b.time.data) true : Decidable (eventLe a b))

instance : IsTotal CalendarEvent eventLe :=
  ⟨fun a b => lexLe_total a.time.data b.time.data⟩

instance : IsTrans CalendarEvent eventLe :=
  ⟨fun a b c => lexLe_trans a.time.data b.time.data c.time.data⟩

/-- `events[dateStr].sort((a,b) => (a.time || '').localeCompare(b.time || ''))`
(src/sw.js line 370).  `Array.prototype.sort` is stable (ES2019), and a
stable sort under a total preorder is unique, so it is modelled by a
stable structural sort. -/
def sortEvents (l : List CalendarEvent) : List CalendarEvent :=
  l.insertionSort eventLe

/-- The event rows generateCalendar renders inside the cell of a given
day: that date's bucket, sorted (src/sw.js lines 369-388). -/
def renderedDayEvents (events : EventStore) (year monthIndex day : Nat) :
    List CalendarEvent :=
  sortEvents ((lookupStore events (dateKey year monthIndex day)).getD [])

/-- C6: the rendered list of a date is a permutation of that date's
bucket sorted ascending by lexicographic time comparison, every event
preceding an untimed event is itself untimed, and in particular the
scenario bucket with times `"09:00"` and `""` renders with the untimed
event first. -/
theorem renderMonth_sorts_by_time (events : EventStore) (y m d : Nat) :
    (renderedDayEvents events y m d).Pairwise eventLe
    ∧ (renderedDayEvents events y m d).Perm
        ((lookupStore events (dateKey y m d)).getD [])
    ∧ (∀ l₁ a l₂, renderedDayEvents events y m d = l₁ ++ a :: l₂ → a.time = "" →
        ∀ b ∈ l₁, b.time = "")
    ∧ renderedDayEvents
        [("2024-4-10", [⟨1, "a", "09:00", "none"⟩, ⟨2, "b", "", "none"⟩])] 2024 4 10
        = [⟨2, "b", "", "none"⟩, ⟨1, "a", "09:00", "none"⟩] := by
  refine ⟨List.sorted_insertionSort eventLe _, List.perm_insertionSort eventLe _, ?_, ?_⟩
  · intro l₁ a l₂ hsplit ha b hb
    have hpw : (renderedDayEvents events y m d).Pairwise eventLe :=
      List.sorted_insertionSort eventLe _
    rw [hsplit] at hpw
    have hle : lexLe b.time.data a.time.data = true :=
      (List.pairwise_append.mp hpw).2.2 b hb a (List.mem_cons_self a l₂)
    have hdata : a.time.data = [] := by rw [ha]
    rw [hdata] at hle
    have hbd : b.time.data = ("" : String).data := lexLe_nil_right _ hle
    exact String.ext hbd
  · decide

/-- C6 witness: the theorem applied to the scenario store; its
untimed-first part instantiated at the concrete rendering (the untimed
event heads the list). -/
theorem renderMonth_sorts_by_time_witness :
    (renderedDayEvents
        [("2024-4-10", [⟨1, "a", "09:00", "none"⟩, ⟨2, "b", "", "none"⟩])] 2024 4 10).Pairwise
      eventLe
    ∧ ∀ b ∈ ([] : List CalendarEvent), b.time = "" := by
  have h := renderMonth_sorts_by_time
    [("2024-4-10", [⟨1, "a", "09:00", "none"⟩, ⟨2, "b", "", "none"⟩])] 2024 4 10
  refine ⟨h.1, ?_⟩
  exact h.2.2.1 [] ⟨2, "b", "", "none"⟩ [⟨1, "a", "09:00", "none"⟩]
    (by simpa using h.2.2.2) rfl

/-! ### Month rendering: effect on the store (C7) -/

/-- Gregorian leap-year rule, as implemented by JS `Date`. -/
def isLeapYear (y : Nat) : Bool :=
  y % 4 == 0 && (y % 100 != 0 || y % 400 == 0)

/-- `new Date(year, month + 1, 0).getDate()` (src/sw.js line 340) for a
0-based month index: the number of days in the month. -/
def daysInMonth (y m : Nat) : Nat :=
  if m == 1 then (if isLeapYear y then 29 else 28)
  else if m == 3 || m == 5 || m == 8 || m == 10 then 30
  else 31

/-- The in-place `events[dateStr].sort(...)` of src/sw.js line 370:
the bucket stored under `key` is replaced by its sorted version. -/
def sortBucketAt (events : EventStore) (key : String) : EventStore :=
  events.map (fun p => if p.1 == key then (p.1, sortEvents p.2) else p)

/-- `generateCalendar`'s effect on the `events` object
(src/sw.js lines 326-406): for every day of the displayed month whose
date key has a bucket, that bucket is sorted in place.  Nothing else of
the store is touched and `saveEvents()` is never called. -/
def generateCalendarStore (events : EventStore) (year monthIndex : Nat) : EventStore :=
  (List.range' 1 (daysInMonth year monthIndex)).foldl
    (fun acc d => sortBucketAt acc (dateKey year monthIndex d)) events

/-- `generateCalendar` as a state transformer: the mutated store plus
whether the handler persisted to localStorage (it contains no
`saveEvents()` call, so never). -/
def generateCalendar (events : EventStore) (year monthIndex : Nat) : EventStore × Bool :=
  (generateCalendarStore events year monthIndex, false)

set_option maxRecDepth 4000 in
/-- C7 (counterexample): rendering May 2024 over a store whose
`"2024-4-10"` bucket holds a `"09:00"` event before an untimed event
reorders that bucket in place, so the store after rendering differs
from the store before — `renderMonth` is not pure in the claimed sense. -/
theorem renderMonth_purity_counterexample :
    (generateCalendar
        [("2024-4-10", [⟨1, "a", "09:00", "none"⟩, ⟨2, "b", "", "none"⟩])] 2024 4).1
      ≠ [("2024-4-10", [⟨1, "a", "09:00", "none"⟩, ⟨2, "b", "", "none"⟩])] := by
  decide

lemma lookupStore_sortBucketAt (events : EventStore) (key k : String) :
    lookupStore (sortBucketAt events key) k
      = if k = key then (lookupStore events k).map sortEvents
        else lookupStore events k := by
  induction events with
  | nil => by_cases hk : k = key <;> simp [sortBucketAt, lookupStore, hk]
  | cons p rest ih =>
    by_cases hpk : p.1 = k
    · by_cases hk : k = key
      · have h1 : (p.1 == key) = true := beq_iff_eq.mpr (hk ▸ hpk)
        have h2 : (p.1 == k) = true := beq_iff_eq.mpr hpk
        simp [sortBucketAt, lookupStore, List.find?, h1, h2, hk]
      · have h1 : (p.1 == key) = false := beq_eq_false_iff_ne.mpr (by rw [hpk]; exact hk)
        have h2 : (p.1 == k) = true := beq_iff_eq.mpr hpk
        simp [sortBucketAt, lookupStore, List.find?, h1, h2, hk]
    · have h2 : (p.1 == k) = false := beq_eq_false_iff_ne.mpr hpk
      by_cases hp : p.1 = key
      · have h1 : (p.1 == key) = true := beq_iff_eq.mpr hp
        simpa [sortBucketAt, lookupStore, List.find?, h1, h2] using ih
      · have h1 : (p.1 == key) = false := beq_eq_false_iff_ne.mpr hp
        simpa [sortBucketAt, lookupStore, List.find?, h1, h2] using ih

lemma sortBucketAt_perm (events : EventStore) (key k : String) :
    ((lookupStore (sortBucketAt events key) k).getD []).Perm
      ((lookupStore events k).getD [])
    ∧ (lookupStore (sortBucketAt events key) k).isSome
        = (lookupStore events k).isSome := by
  rw [lookupStore_sortBucketAt]
  by_cases hk : k = key
  · cases h : lookupStore events k with
    | none => simp [hk, h]
    | some b =>
      refine ⟨?_, by simp [hk, h]⟩
      simpa [hk, h] using List.perm_insertionSort eventLe b
  · simp [hk]

/-- C7 (amended): rendering a month never persists anything and leaves
every date key in place with a bucket that is a permutation of the
original (its in-place sorted version): no event is added, removed or
changed — but the bucket of a rendered date may be reordered, which is
exactly what the counterexample exhibits. -/
theorem renderMonth_frame_amended (events : EventStore) (y m : Nat) :
    (generateCalendar events y m).2 = false
    ∧ (∀ key, ((lookupStore (generateCalendar events y m).1 key).getD []).Perm
        ((lookupStore events key).getD []))
    ∧ (∀ key, (lookupStore (generateCalendar events y m).1 key).isSome
        = (lookupStore events key).isSome) := by
  have main : ∀ (ds : List Nat) (acc : EventStore) (k : String),
      ((lookupStore (ds.foldl (fun a d => sortBucketAt a (dateKey y m d)) acc) k).getD
          []).Perm ((lookupStore acc k).getD [])
      ∧ (lookupStore (ds.foldl (fun a d => sortBucketAt a (dateKey y m d)) acc) k).isSome
          = (lookupStore acc k).isSome := by
    intro ds
    induction ds with
    | nil => exact fun acc k => ⟨List.Perm.refl _, rfl⟩
    | cons d rest ih =>
      intro acc k
      have h1 := sortBucketAt_perm acc (dateKey y m d) k
      have h2 := ih (sortBucketAt acc (dateKey y m d)) k
      exact ⟨h2.1.trans h1.1, h2.2.trans h1.2⟩
  exact ⟨rfl, fun k => (main _ events k).1, fun k => (main _ events k).2⟩

/-! ### Store-wide id uniqueness across reachable states (C8) -/

/-- All event ids of the store, bucket by bucket. -/
def storeIds : EventStore → List Nat
  | [] => []
  | p :: rest => p.2.map (fun e => e.id) ++ storeIds rest

lemma storeIds_append (s t : EventStore) :
    storeIds (s ++ t) = storeIds s ++ storeIds t := by
  induction s with
  | nil => rfl
  | cons p rest ih => simp [storeIds, ih]

lemma replaceOrAppend_ids_of_mem (id : Nat) (t tm rm : String)
    (b : List CalendarEvent) (h : id ∈ b.map (fun e => e.id)) :
    (replaceOrAppend id t tm rm b).map (fun e => e.id) = b.map (fun e => e.id) := by
  induction b with
  | nil => simp at h
  | cons e rest ih =>
    by_cases he : e.id = id
    · simp [replaceOrAppend, beq_iff_eq.mpr he]
    · have hb : (e.id == id) = false := beq_eq_false_iff_ne.mpr he
      have hmem : id ∈ rest.map (fun e => e.id) := by
        rcases List.mem_map.mp h with ⟨x, hx, hxid⟩
        rcases List.mem_cons.mp hx with hx | hx
        · exact absurd (hx ▸ hxid) he
        · exact hxid ▸ List.mem_map_of_mem _ hx
      simp [replaceOrAppend, hb, ih hmem]

lemma replaceOrAppend_ids_of_absent (id : Nat) (t tm rm : String)
    (b : List CalendarEvent) (h : id ∉ b.map (fun e => e.id)) :
    (replaceOrAppend id t tm rm b).map (fun e => e.id)
      = b.map (fun e => e.id) ++ [id] := by
  have habs : ∀ e ∈ b, e.id ≠ id := by
    intro e he heq
    exact h (heq ▸ List.mem_map_of_mem _ he)
  rw [replaceOrAppend_of_absent id t tm rm b habs]
  simp

lemma setStore_decompose (s : EventStore) (k : String)
    (hk : (lookupStore s k).isSome = true) :
    ∃ A B, storeIds s = A ++ ((lookupStore s k).getD []).map (fun e => e.id) ++ B
      ∧ ∀ v, storeIds (setStore s k v) = A ++ v.map (fun e => e.id) ++ B := by
  induction s with
  | nil => simp [lookupStore] at hk
  | cons p rest ih =>
    by_cases hp : p.1 = k
    · have hb : (p.1 == k) = true := beq_iff_eq.mpr hp
      refine ⟨[], storeIds rest, ?_, ?_⟩
      · simp [storeIds, lookupStore, List.find?, hb]
      · intro v
        simp [setStore, hb, storeIds]
    · have hb : (p.1 == k) = false := beq_eq_false_iff_ne.mpr hp
      have hk' : (lookupStore rest k).isSome = true := by
        simpa [lookupStore, List.find?, hb] using hk
      obtain ⟨A, B, h1, h2⟩ := ih hk'
      refine ⟨p.2.map (fun e => e.id) ++ A, B, ?_, ?_⟩
      · have : lookupStore (p :: rest) k = lookupStore rest k := by
          simp [lookupStore, List.find?, hb]
        rw [this]
        simp [storeIds, h1]
      · intro v
        simp [setStore, hb, storeIds, h2 v]

lemma setStore_absent (s : EventStore) (k : String) (v : List CalendarEvent)
    (hk : lookupStore s k = none) : setStore s k v = s ++ [(k, v)] := by
  induction s with
  | nil => rfl
  | cons p rest ih =>
    by_cases hp : p.1 = k
    · have hb : (p.1 == k) = true := beq_iff_eq.mpr hp
      simp [lookupStore, List.find?, hb] at hk
    · have hb : (p.1 == k) = false := beq_eq_false_iff_ne.mpr hp
      have hk' : lookupStore rest k = none := by
        simpa [lookupStore, List.find?, hb] using hk
      simp [setStore, hb, ih hk']

lemma storeIds_removeKey_sublist (s : EventStore) (k : String) :
    (storeIds (removeKey s k)).Sublist (storeIds s) := by
  induction s with
  | nil => exact List.Sublist.refl _
  | cons p rest ih =>
    by_cases hp : p.1 = k
    · have hb : (p.1 == k) = true := beq_iff_eq.mpr hp
      have hdrop : removeKey (p :: rest) k = removeKey rest k := by
        simp [removeKey, List.filter_cons, hb]
      rw [hdrop]
      exact ih.trans (List.sublist_append_right _ _)
    · have hb : (p.1 == k) = false := beq_eq_false_iff_ne.mpr hp
      have hkeep : removeKey (p :: rest) k = p :: removeKey rest k := by
        simp [removeKey, List.filter_cons, hb]
      rw [hkeep]
      exact (storeIds_append [p] (removeKey rest k)) ▸
        (storeIds_append [p] rest) ▸ ((List.Sublist.refl _).append ih)

lemma nodup_mid_sublist (A X B X' : List Nat) (hX : X'.Sublist X)
    (h : (A ++ X ++ B).Nodup) : (A ++ X' ++ B).Nodup :=
  (((List.Sublist.refl A).append hX).append (List.Sublist.refl B)).nodup h

lemma nodup_insert_middle (A X B : List Nat) (a : Nat)
    (h : (A ++ X ++ B).Nodup) (ha : a ∉ A ++ X ++ B) :
    (A ++ (X ++ [a]) ++ B).Nodup := by
  have hperm : (A ++ (X ++ [a]) ++ B).Perm (a :: (A ++ X ++ B)) := by
    have hmid := @List.perm_middle Nat a (A ++ X) B
    have : A ++ (X ++ [a]) ++ B = (A ++ X) ++ a :: B := by
      simp [List.append_assoc]
    rw [this]
    simpa [List.append_assoc] using hmid
  exact hperm.nodup_iff.mpr (List.nodup_cons.mpr ⟨ha, h⟩)

lemma uniqueIds_saveEvent (s : EventStore) (date : String) (id : Nat)
    (rawText time reminder : String)
    (hfresh : id ∈ ((lookupStore s date).getD []).map (fun e => e.id) ∨ id ∉ storeIds s)
    (h : (storeIds s).Nodup) :
    (storeIds (saveEvent s (some (date, id)) rawText time reminder).1).Nodup := by
  by_cases htext : jsTrim rawText = ""
  · simpa [saveEvent, htext] using h
  · by_cases hcond : reminder ≠ "none" ∧ time = ""
    · simpa [saveEvent, htext, hcond] using h
    · have hsave : (saveEvent s (some (date, id)) rawText time reminder).1
          = setStore s date (replaceOrAppend id (jsTrim rawText) time reminder
              ((lookupStore s date).getD [])) := by
        simp [saveEvent, htext, hcond]
      rw [hsave]
      by_cases hk : (lookupStore s date).isSome = true
      · obtain ⟨A, B, h1, h2⟩ := setStore_decompose s date hk
        by_cases hid : id ∈ ((lookupStore s date).getD []).map (fun e => e.id)
        · rw [h2 _, replaceOrAppend_ids_of_mem id _ _ _ _ hid, ← h1]
          exact h
        · have hid' : id ∉ storeIds s := by
            rcases hfresh with hf | hf
            · exact absurd hf hid
            · exact hf
          rw [h2 _, replaceOrAppend_ids_of_absent id _ _ _ _ hid]
          exact nodup_insert_middle A _ B id (h1 ▸ h) (h1 ▸ hid')
      · have hnone : lookupStore s date = none := by
          cases hcase : lookupStore s date with
          | none => rfl
          | some b => rw [hcase] at hk; simp at hk
        rw [setStore_absent s date _ hnone, storeIds_append]
        have hid' : id ∉ storeIds s := by
          rcases hfresh with hf | hf
          · rw [hnone] at hf; simp at hf
          · exact hf
        have hone : storeIds [(date, replaceOrAppend id (jsTrim rawText) time reminder
            ((lookupStore s date).getD []))] = [id] := by
          rw [hnone]
          simp [storeIds, replaceOrAppend]
        rw [hone]
        simp [List.nodup_append, h, hid']

lemma uniqueIds_deleteEventStore (s s' : EventStore) (date : String) (id : Nat)
    (hdel : deleteEventStore s date id = some s') (h : (storeIds s).Nodup) :
    (storeIds s').Nodup := by
  unfold deleteEventStore at hdel
  cases hlk : lookupStore s date with
  | none => rw [hlk] at hdel; simp at hdel
  | some bucket =>
    rw [hlk] at hdel
    simp only [Option.some.injEq] at hdel
    subst hdel
    by_cases hf : (bucket.filter (fun e => !(e.id == id))).isEmpty
    · rw [if_pos hf]
      exact (storeIds_removeKey_sublist s date).nodup h
    · rw [if_neg hf]
      have hk : (lookupStore s date).isSome = true := by rw [hlk]; rfl
      obtain ⟨A, B, h1, h2⟩ := setStore_decompose s date hk
      rw [h2 _]
      have hsub : ((bucket.filter (fun e => !(e.id == id))).map
          (fun e => e.id)).Sublist (((lookupStore s date).getD []).map (fun e => e.id)) := by
        rw [hlk]
        exact (List.filter_sublist bucket).map _
      exact nodup_mid_sublist A _ B _ hsub (h1 ▸ h)

/-- One user-level mutation of the store: a click of the save button
(src/sw.js lines 276-299) with arbitrary inputs, or a confirmed delete
(src/sw.js lines 312-319) of a present date key. -/
inductive CalStep : EventStore → EventStore → Prop
  | save (s : EventStore) (date : String) (id : Nat) (rawText time reminder : String) :
      CalStep s (saveEvent s (some (date, id)) rawText time reminder).1
  | del (s s' : EventStore) (date : String) (id : Nat)
      (h : deleteEventStore s date id = some s') :
      CalStep s s'

/-- Stores reachable from the empty store by create/update/delete. -/
inductive ReachableStore : EventStore → Prop
  | empty : ReachableStore []
  | step (s s' : EventStore) : ReachableStore s → CalStep s s' → ReachableStore s'

/-- A mutation whose save uses an id that is either already in the
target date's bucket (an update) or fresh for the whole store (the
creation scheme: `Date.now()` ids are assumed not to repeat). -/
inductive FreshStep : EventStore → EventStore → Prop
  | save (s : EventStore) (date : String) (id : Nat) (rawText time reminder : String)
      (hfresh : id ∈ ((lookupStore s date).getD []).map (fun e => e.id)
        ∨ id ∉ storeIds s) :
      FreshStep s (saveEvent s (some (date, id)) rawText time reminder).1
  | del (s s' : EventStore) (date : String) (id : Nat)
      (h : deleteEventStore s date id = some s') :
      FreshStep s s'

/-- Stores reachable from the empty store when every creation uses a
fresh id. -/
inductive FreshReachable : EventStore → Prop
  | empty : FreshReachable []
  | step (s s' : EventStore) : FreshReachable s → FreshStep s s' → FreshReachable s'

/-- A reachable store holding the same id `5` under two different date
keys: the save handler checks ids only inside the target date's bucket. -/
def dupIdStore : EventStore :=
  (saveEvent (saveEvent [] (some ("2024-4-1", 5)) "a" "" "none").1
    (some ("2024-4-2", 5)) "b" "" "none").1

/-- C8 (counterexample): a store produced by two valid creates that use
the same id under different date keys is reachable, yet its event ids
are not unique across the store — the code deduplicates ids only within
one date's bucket. -/
theorem storewide_id_uniqueness_counterexample :
    ReachableStore dupIdStore ∧ ¬ (storeIds dupIdStore).Nodup := by
  constructor
  · exact ReachableStore.step _ _
      (ReachableStore.step _ _ ReachableStore.empty
        (CalStep.save [] "2024-4-1" 5 "a" "" "none"))
      (CalStep.save _ "2024-4-2" 5 "b" "" "none")
  · decide

/-- C8 (amended): under the id-freshness discipline the creation scheme
is meant to provide (each create's `Date.now()` id is absent from the
whole store; updates reuse an id of the target bucket), every reachable
store has ids unique across the entire store. -/
theorem storewide_id_uniqueness_amended (s : EventStore) (h : FreshReachable s) :
    (storeIds s).Nodup := by
  induction h with
  | empty => exact List.nodup_nil
  | step s s' _ hstep ih =>
    cases hstep with
    | save date id rawText time reminder hfresh =>
      exact uniqueIds_saveEvent _ _ _ _ _ _ hfresh ih
    | del s2 date id hdel =>
      exact uniqueIds_deleteEventStore _ _ _ _ hdel ih

/-- C8 witness: two creates with distinct fresh ids yield a store whose
ids the amended theorem certifies as globally unique. -/
theorem storewide_id_uniqueness_amended_witness :
    (storeIds (saveEvent (saveEvent [] (some ("2024-4-1", 5)) "a" "" "none").1
      (some ("2024-4-2", 6)) "b" "" "none").1).Nodup :=
  storewide_id_uniqueness_amended _
    (FreshReachable.step _ _
      (FreshReachable.step _ _ FreshReachable.empty
        (FreshStep.save [] "2024-4-1" 5 "a" "" "none" (Or.inr (by decide))))
      (FreshStep.save _ "2024-4-2" 6 "b" "" "none" (Or.inr (by decide))))

/-! ### The offline worker's fetch handler (C9) -/

/-- The parts of a request the fetch listener reads: its HTTP method
and its URL (the cache key). -/
structure JsRequest where
  method : String
  url : String
deriving DecidableEq

/-- The parts of a response the fetch listener reads, plus an opaque
body tag so distinct responses compare unequal.  (`fetch` resolves to an
actual `Response` object, so the defensive `!response` test of
src/sw.js line 81 has no counterpart.) -/
structure JsResponse where
  status : Nat
  type : String
  body : Nat
deriving DecidableEq

/-- The versioned cache: a mapping from request URL to stored response. -/
abbrev SwCache := List (String × JsResponse)

/-- `caches.match(event.request)`. -/
def lookupCache (cache : SwCache) (url : String) : Option JsResponse :=
  (cache.find? (fun p => p.1 == url)).map (fun p => p.2)

/-- `cache.put(event.request, responseToCache)`: overwrites any entry
for the URL. -/
def cachePut (cache : SwCache) (url : String) (r : JsResponse) : SwCache :=
  cache.filter (fun p => !(p.1 == url)) ++ [(url, r)]

/-- Outcome of the fetch listener for one request: either the handler
returns without calling `respondWith` (the browser proceeds as if no
service worker existed), or it responds with a response, leaving the
cache in the given state. -/
inductive FetchOutcome
  | passthrough
  | respond (r : JsResponse) (cache : SwCache)
deriving DecidableEq

/-- The `fetch` event listener (src/sw.js lines 57-101).  `net` is the
network: the response `fetch(event.request)` would produce for a URL.
Non-GET requests return early; a cache hit answers from the cache;
otherwise the network response is returned, and a clone is stored only
when its status is 200 and its type is `'basic'` or `'cors'`. -/
def handleFetch (cache : SwCache) (net : String → JsResponse) (req : JsRequest) :
    FetchOutcome :=
  if req.method ≠ "GET" then .passthrough
  else
    match lookupCache cache req.url with
    | some r => .respond r cache
    | none =>
      let r := net req.url
      if r.status ≠ 200 ∨ (r.type ≠ "basic" ∧ r.type ≠ "cors") then .respond r cache
      else .respond r (cachePut cache req.url r)

lemma lookupCache_cachePut_self (cache : SwCache) (url : String) (r : JsResponse) :
    lookupCache (cachePut cache url r) url = some r := by
  induction cache with
  | nil => simp [cachePut, lookupCache, List.find?]
  | cons p rest ih =>
    by_cases hp : p.1 = url
    · have hb : (p.1 == url) = true := beq_iff_eq.mpr hp
      have hdrop : cachePut (p :: rest) url r = cachePut rest url r := by
        simp [cachePut, List.filter_cons, hb]
      rw [hdrop]
      exact ih
    · have hb : (p.1 == url) = false := beq_eq_false_iff_ne.mpr hp
      have hkeep : cachePut (p :: rest) url r = p :: cachePut rest url r := by
        simp [cachePut, List.filter_cons, hb]
      rw [hkeep]
      simpa [lookupCache, List.find?, hb] using ih

/-- C9: every non-GET request passes through untouched; a GET with a
cache hit is answered from the cache, which is left unchanged; a GET
miss is answered by the network response itself, and a copy is stored
(and found by a later lookup) exactly when the response has status 200
and type `'basic'` or `'cors'` — any other response is returned with
the cache unchanged. -/
theorem fetch_handler_spec (cache : SwCache) (net : String → JsResponse)
    (req : JsRequest) :
    (req.method ≠ "GET" → handleFetch cache net req = .passthrough)
    ∧ (∀ r₀, req.method = "GET" → lookupCache cache req.url = some r₀ →
        handleFetch cache net req = .respond r₀ cache)
    ∧ (req.method = "GET" → lookupCache cache req.url = none →
        (((net req.url).status = 200
            ∧ ((net req.url).type = "basic" ∨ (net req.url).type = "cors")) →
          handleFetch cache net req
              = .respond (net req.url) (cachePut cache req.url (net req.url))
          ∧ lookupCache (cachePut cache req.url (net req.url)) req.url
              = some (net req.url))
        ∧ (¬((net req.url).status = 200
            ∧ ((net req.url).type = "basic" ∨ (net req.url).type = "cors")) →
          handleFetch cache net req = .respond (net req.url) cache)) := by
  refine ⟨?_, ?_, ?_⟩
  · intro h
    simp [handleFetch, h]
  · intro r₀ hm hc
    simp [handleFetch, hm, hc]
  · intro hm hc
    constructor
    · intro hok
      have hcond : ¬((net req.url).status ≠ 200
          ∨ ((net req.url).type ≠ "basic" ∧ (net req.url).type ≠ "cors")) := by
        push_neg
        refine ⟨hok.1, ?_⟩
        intro hb
        rcases hok.2 with h | h
        · exact absurd h hb
        · exact h
      refine ⟨?_, lookupCache_cachePut_self cache req.url (net req.url)⟩
      simp [handleFetch, hm, hc, hcond]
    · intro hbad
      have hcond : (net req.url).status ≠ 200
          ∨ ((net req.url).type ≠ "basic" ∧ (net req.url).type ≠ "cors") := by
        by_contra hno
        push_neg at hno
        exact hbad ⟨hno.1, by
          by_cases hbasic : (net req.url).type = "basic"
          · exact Or.inl hbasic
          · exact Or.inr (hno.2 hbasic)⟩
      simp [handleFetch, hm, hc, hcond]

/-- C9 witness: a GET miss answered by a 200 `'basic'` network response
is cached and retrievable; a second theorem application shows a POST to
the same URL passing through. -/
theorem fetch_handler_spec_witness :
    (handleFetch [] (fun _ => ⟨200, "basic", 0⟩) ⟨"GET", "index.html"⟩
        = .respond ⟨200, "basic", 0⟩ [("index.html", ⟨200, "basic", 0⟩)]
      ∧ lookupCache (cachePut [] "index.html" ⟨200, "basic", 0⟩) "index.html"
          = some ⟨200, "basic", 0⟩)
    ∧ handleFetch [] (fun _ => ⟨200, "basic", 0⟩) ⟨"POST", "api"⟩ = .passthrough := by
  constructor
  · have h := (fetch_handler_spec [] (fun _ => ⟨200, "basic", 0⟩)
      ⟨"GET", "index.html"⟩).2.2 rfl rfl
    have h2 := h.1 ⟨rfl, Or.inl rfl⟩
    exact ⟨by rw [h2.1]; decide, h2.2⟩
  · exact (fetch_handler_spec [] (fun _ => ⟨200, "basic", 0⟩) ⟨"POST", "api"⟩).1
      (by decide)

/-! ### The reminder scan never mutates the store (C10) -/

/-- The reminder timer callback's full effect on page state
(src/sw.js lines 490-515): `checkReminders` reads `events` (it never
assigns to it or to a bucket), shows notifications, and grows
`sessionNotifiedIds`; the store component of the state is passed
through. -/
def checkRemindersState (events : EventStore) (notified : List Nat) (now : DateTime) :
    EventStore × List CalendarEvent × List Nat :=
  (events, checkReminders events notified now)

lemma remindLoop_fst_subset (now : DateTime) (l : List CalendarEvent) :
    ∀ s : List Nat, ∀ e ∈ (remindLoop now l s).1, e ∈ l := by
  induction l with
  | nil => intro s e he; simp [remindLoop] at he
  | cons x rest ih =>
    intro s e he
    simp only [remindLoop] at he
    have step : ∀ s', e ∈ (remindLoop now rest s').1 → e ∈ x :: rest :=
      fun s' h => List.mem_cons_of_mem x (ih s' e h)
    split at he
    · exact step s he
    · split at he
      · exact step s he
      · split at he
        · exact step s he
        · split at he
          · exact step s he
          · split at he
            · rcases List.mem_cons.mp he with h | h
              · exact h ▸ List.mem_cons_self x rest
              · exact step (x.id :: s) h
            · exact step s he

lemma remindLoop_snd_origin (now : DateTime) (l : List CalendarEvent) :
    ∀ s : List Nat, ∀ x ∈ (remindLoop now l s).2, x ∈ s ∨ ∃ e ∈ l, e.id = x := by
  induction l with
  | nil => intro s x hx; exact Or.inl hx
  | cons e rest ih =>
    intro s x hx
    simp only [remindLoop] at hx
    have push : (x ∈ s ∨ ∃ y ∈ rest, y.id = x) → x ∈ s ∨ ∃ y ∈ e :: rest, y.id = x := by
      rintro (h | ⟨y, hy, hyx⟩)
      · exact Or.inl h
      · exact Or.inr ⟨y, List.mem_cons_of_mem e hy, hyx⟩
    split at hx
    · exact push (ih s x hx)
    · split at hx
      · exact push (ih s x hx)
      · split at hx
        · exact push (ih s x hx)
        · split at hx
          · exact push (ih s x hx)
          · split at hx
            · rcases ih (e.id :: s) x hx with h | h
              · rcases List.mem_cons.mp h with h | h
                · exact Or.inr ⟨e, List.mem_cons_self e rest, h.symm⟩
                · exact Or.inl h
              · exact push (Or.inr h)
            · exact push (ih s x hx)

/-- C10: a reminder scan leaves the event store exactly as it was: the
state step returns the same mapping, every notification it emits is an
event of today's bucket, the session set only grows, and every id it
adds is the id of an event of today's bucket. -/
theorem scanReminders_frame (events : EventStore) (notified : List Nat) (now : DateTime) :
    (checkRemindersState events notified now).1 = events
    ∧ (∀ e ∈ (checkRemindersState events notified now).2.1,
        e ∈ (lookupStore events (dateKey now.year now.monthIndex now.day)).getD [])
    ∧ (∀ x ∈ notified, x ∈ (checkRemindersState events notified now).2.2)
    ∧ (∀ x ∈ (checkRemindersState events notified now).2.2,
        x ∈ notified
        ∨ ∃ e ∈ (lookupStore events (dateKey now.year now.monthIndex now.day)).getD [],
            e.id = x) := by
  refine ⟨rfl, ?_, ?_, ?_⟩
  · intro e he
    exact remindLoop_fst_subset now _ notified e he
  · intro x hx
    exact remindLoop_mem_snd now _ notified x hx
  · intro x hx
    exact remindLoop_snd_origin now _ notified x hx

/-- C10 witness: the frame theorem applied to the C1 store at 13:31:
the store component is untouched, and the single emitted notification
is an event of today's bucket. -/
theorem scanReminders_frame_witness :
    (checkRemindersState [("2024-4-10", [c1Event])] [] (mayTenAt (13 * 60 + 31))).1
      = [("2024-4-10", [c1Event])]
    ∧ c1Event ∈ (lookupStore [("2024-4-10", [c1Event])]
        (dateKey 2024 4 10)).getD [] := by
  have h := scanReminders_frame [("2024-4-10", [c1Event])] [] (mayTenAt (13 * 60 + 31))
  refine ⟨h.1, ?_⟩
  exact h.2.1 c1Event (by decide)
